import Mathlib

/-!
Verification of the trust-dns per-record codecs (SRV and SVCB/HTTPS).

Shallow embedding conventions:
* Rust `u8` bytes are `Nat` values `< 256`; byte buffers are `List Nat`.
* The bounded binary cursor (`BinDecoder`) is the list of not-yet-consumed
  bytes of the current record; `decoder.len()` is `List.length`.
* The binary encoder (`BinEncoder` backed by a growable `Vec<u8>`, which
  cannot overflow) is modelled as a pure function producing the emitted bytes.
* Fallible Rust functions returning `Result` become `Except`.  A Rust panic
  (`Option::unwrap` on `None`, `Result::unwrap` on `Err`) is a distinct
  outcome from a returned error, so panics are modelled by dedicated
  error constructors `panicUnwrapNone` / `panicInvalidUtf8`: a result built
  from one of these corresponds to a process abort, not to a `ProtoResult`
  error value handed to the caller.
* A Rust `String` is modelled as its UTF-8 byte sequence (`List Nat`); the
  Rust type invariant "a String is valid UTF-8" becomes an explicit
  well-formedness predicate `utf8Valid`.
-/

/-- Errors surfaced by the binary codec, plus the two panic outcomes of
`svcb::read` (which are aborts in Rust, kept distinct from real errors). -/
inductive ProtoError where
  | bufferUnderflow
  | panicUnwrapNone
  | panicInvalidUtf8
  deriving DecidableEq, Repr

instance {ε α : Type} [DecidableEq ε] [DecidableEq α] : DecidableEq (Except ε α) := fun x y =>
  match x, y with
  | .ok a, .ok b =>
    if h : a = b then isTrue (by rw [h])
    else isFalse (by intro hh; cases hh; exact h rfl)
  | .error a, .error b =>
    if h : a = b then isTrue (by rw [h])
    else isFalse (by intro hh; cases hh; exact h rfl)
  | .ok _, .error _ => isFalse (by intro hh; cases hh)
  | .error _, .ok _ => isFalse (by intro hh; cases hh)

/-- `BinDecoder::read_u16`: consume two bytes, big-endian (network order);
underflow if fewer than two bytes remain. -/
def read_u16 : List Nat → Except ProtoError (Nat × List Nat)
  | b0 :: b1 :: rest => .ok (b0 * 256 + b1, rest)
  | _ => .error .bufferUnderflow

/-- `BinDecoder::read_vec(n)`: consume exactly `n` raw bytes; underflow if
fewer remain. -/
def read_vec (n : Nat) (input : List Nat) : Except ProtoError (List Nat × List Nat) :=
  if n ≤ input.length then .ok (input.take n, input.drop n) else .error .bufferUnderflow

/-- `BinEncoder::emit_u16`: two bytes, big-endian.  Callers pass a Rust
`u16`, i.e. a value `< 65536` (casts `as u16` are made explicit with
`% 65536` at call sites). -/
def emit_u16 (v : Nat) : List Nat := [v / 256, v % 256]

/-- Reading back what `emit_u16` wrote recovers the value. -/
theorem read_u16_emit_u16 (v : Nat) (rest : List Nat) :
    read_u16 (emit_u16 v ++ rest) = .ok (v, rest) := by
  simp only [emit_u16, List.cons_append, List.nil_append, read_u16]
  have : v / 256 * 256 + v % 256 = v := by omega
  rw [this]

theorem read_u16_ok_length {input r : List Nat} {v : Nat}
    (h : read_u16 input = .ok (v, r)) : r.length + 2 = input.length := by
  match input with
  | [] => simp [read_u16] at h
  | [b] => simp [read_u16] at h
  | b0 :: b1 :: rest =>
    simp only [read_u16, Except.ok.injEq, Prod.mk.injEq] at h
    simp [h.2]

theorem read_vec_ok_length {n : Nat} {input b r : List Nat}
    (h : read_vec n input = .ok (b, r)) : r.length ≤ input.length := by
  unfold read_vec at h
  split at h
  · cases h
    simp
  · cases h

theorem read_vec_append (pre rest : List Nat) :
    read_vec pre.length (pre ++ rest) = .ok (pre, rest) := by
  simp [read_vec]

/-- UTF-8 validity of a byte sequence, as checked by Rust's
`String::from_utf8` (rejects stray continuation bytes, overlong encodings,
surrogates, and values above U+10FFFF). -/
def utf8Valid : List Nat → Bool
  | [] => true
  | b :: rest =>
    if b < 0x80 then utf8Valid rest
    else if 0xC2 ≤ b ∧ b ≤ 0xDF then
      match rest with
      | c1 :: rest' => (0x80 ≤ c1 && c1 ≤ 0xBF) && utf8Valid rest'
      | [] => false
    else if b = 0xE0 then
      match rest with
      | c1 :: c2 :: rest' =>
        (0xA0 ≤ c1 && c1 ≤ 0xBF) && (0x80 ≤ c2 && c2 ≤ 0xBF) && utf8Valid rest'
      | _ => false
    else if (0xE1 ≤ b ∧ b ≤ 0xEC) ∨ b = 0xEE ∨ b = 0xEF then
      match rest with
      | c1 :: c2 :: rest' =>
        (0x80 ≤ c1 && c1 ≤ 0xBF) && (0x80 ≤ c2 && c2 ≤ 0xBF) && utf8Valid rest'
      | _ => false
    else if b = 0xED then
      match rest with
      | c1 :: c2 :: rest' =>
        (0x80 ≤ c1 && c1 ≤ 0x9F) && (0x80 ≤ c2 && c2 ≤ 0xBF) && utf8Valid rest'
      | _ => false
    else if b = 0xF0 then
      match rest with
      | c1 :: c2 :: c3 :: rest' =>
        (0x90 ≤ c1 && c1 ≤ 0xBF) && (0x80 ≤ c2 && c2 ≤ 0xBF) &&
          ((0x80 ≤ c3 && c3 ≤ 0xBF) && utf8Valid rest')
      | _ => false
    else if 0xF1 ≤ b ∧ b ≤ 0xF3 then
      match rest with
      | c1 :: c2 :: c3 :: rest' =>
        (0x80 ≤ c1 && c1 ≤ 0xBF) && (0x80 ≤ c2 && c2 ≤ 0xBF) &&
          ((0x80 ≤ c3 && c3 ≤ 0xBF) && utf8Valid rest')
      | _ => false
    else if b = 0xF4 then
      match rest with
      | c1 :: c2 :: c3 :: rest' =>
        (0x80 ≤ c1 && c1 ≤ 0x8F) && (0x80 ≤ c2 && c2 ≤ 0xBF) &&
          ((0x80 ≤ c3 && c3 ≤ 0xBF) && utf8Valid rest')
      | _ => false
    else false

/-- ASCII text as bytes (used for display names, digits and punctuation,
all of which are ASCII, where UTF-8 coincides with the code points). -/
def strBytes (s : String) : List Nat := s.data.map Char.toNat

/-- Modelled from the spec: the external Name Codec's in-memory domain
name — a sequence of labels, each a byte sequence ("parses and emits
dotted names"). -/
structure Name where
  labels : List (List Nat)
  deriving DecidableEq, Repr

/-- Well-formed wire-encodable name: every label is non-empty, at most 63
bytes long (DNS label limit; name compression is out of scope), and made
of bytes. -/
def Name.wf (n : Name) : Prop :=
  ∀ l ∈ n.labels, 1 ≤ l.length ∧ l.length ≤ 63 ∧ ∀ b ∈ l, b < 256

instance (n : Name) : Decidable n.wf := by
  unfold Name.wf; infer_instance

/-- ASCII lowercasing of one byte, for DNSSEC-canonical name emission. -/
def lowerByte (b : Nat) : Nat := if 65 ≤ b ∧ b ≤ 90 then b + 32 else b

/-- Modelled from the spec: `Name::emit` / `Name::emit_with_lowercase` —
uncompressed wire form: each label as a length byte followed by its bytes,
terminated by a zero byte; lowercased when canonical emission is asked. -/
def Name.emitBytes (lowercase : Bool) (n : Name) : List Nat :=
  (n.labels.map (fun l =>
    let l := if lowercase then l.map lowerByte else l
    l.length :: l)).flatten ++ [0]

/-- Modelled from the spec: `Name::read` — read length-prefixed labels from
the cursor until the zero terminator. -/
def Name.read (input : List Nat) : Except ProtoError (Name × List Nat) :=
  match input with
  | [] => .error .bufferUnderflow
  | len :: rest =>
    if _hz : len = 0 then .ok (⟨[]⟩, rest)
    else if _h : len ≤ rest.length then
      match Name.read (rest.drop len) with
      | .ok (n, r) => .ok (⟨rest.take len :: n.labels⟩, r)
      | .error e => .error e
    else .error .bufferUnderflow
  termination_by input.length
  decreasing_by
    simp only [List.length_cons, List.length_drop]
    omega

/-- Modelled from the spec: the external Name Codec's text form — labels
joined with dots (`fmt::Display for Name`). -/
def Name.displayText (n : Name) : List Nat :=
  (n.labels.map (fun l => l ++ [46])).flatten

/-- Unfolding `Name.emitBytes` (non-canonical) on a cons of labels. -/
theorem Name.emitBytes_cons (l : List Nat) (ls : List (List Nat)) :
    Name.emitBytes false ⟨l :: ls⟩ = l.length :: (l ++ Name.emitBytes false ⟨ls⟩) := by
  simp [Name.emitBytes]

/-- Reading back an emitted (non-canonical) name consumes exactly its wire
bytes and recovers the name. -/
theorem Name.read_emitBytes (n : Name) (hw : n.wf) (rest : List Nat) :
    Name.read (Name.emitBytes false n ++ rest) = .ok (n, rest) := by
  obtain ⟨labels⟩ := n
  induction labels with
  | nil =>
    rw [show Name.emitBytes false ⟨[]⟩ = [0] from by simp [Name.emitBytes]]
    rw [Name.read.eq_def]
    simp
  | cons l ls ih =>
    have hl := hw l (by simp)
    have hw' : Name.wf ⟨ls⟩ := fun x hx => hw x (by simp [Name.wf] at hx ⊢; exact Or.inr hx)
    rw [Name.emitBytes_cons, List.cons_append, Name.read.eq_def]
    have hz : l.length ≠ 0 := by omega
    simp only []
    rw [dif_neg hz]
    have hle : l.length ≤ (l ++ (Name.emitBytes false ⟨ls⟩ ++ rest)).length := by
      simp [List.length_append]
    rw [List.append_assoc, dif_pos hle]
    rw [List.drop_left, List.take_left]
    rw [ih hw']

/-! ## SVCB / HTTPS data model (svcb.rs) -/

/-- `enum SVCBKey` with its `#[repr(u16)]` discriminants made explicit by
`svcbKeyCode` below. -/
inductive SVCBKey where
  | Mandatory
  | Alpn
  | NoDefaultAlpn
  | Port
  | IPv4Hint
  | ECHConfig
  | IPv6Hint
  | ODoHConfig
  | Reserved
  deriving DecidableEq, Repr

/-- The `as u16` cast on `SVCBKey` (the `#[repr(u16)]` discriminant). -/
def svcbKeyCode : SVCBKey → Nat
  | .Mandatory => 0
  | .Alpn => 1
  | .NoDefaultAlpn => 2
  | .Port => 3
  | .IPv4Hint => 4
  | .ECHConfig => 5
  | .IPv6Hint => 6
  | .ODoHConfig => 32769
  | .Reserved => 65535

/-- `SVCB_MAP.get(&code)`: the lazily-built `HashMap<u16, SVCBKey>` of the
registry, as a partial lookup (`Option`, like `HashMap::get`). -/
def SVCB_MAP_get (code : Nat) : Option SVCBKey :=
  if code = 0 then some .Mandatory
  else if code = 1 then some .Alpn
  else if code = 2 then some .NoDefaultAlpn
  else if code = 3 then some .Port
  else if code = 4 then some .IPv4Hint
  else if code = 5 then some .ECHConfig
  else if code = 6 then some .IPv6Hint
  else if code = 32769 then some .ODoHConfig
  else if code = 65535 then some .Reserved
  else none

/-- `fmt::Display for SVCBKey`: the registry display name; the wildcard arm
of the `match` (which catches `Reserved`) yields the empty string. -/
def SVCBKey.displayName : SVCBKey → String
  | .Mandatory => "mandatory"
  | .Alpn => "alpn"
  | .NoDefaultAlpn => "no-default-alpn"
  | .Port => "port"
  | .IPv4Hint => "ipv4hint"
  | .ECHConfig => "echconfig"
  | .IPv6Hint => "ipv6hint"
  | .ODoHConfig => "odohconfig"
  | .Reserved => ""

/-- `struct KeyValue { key: SVCBKey, value: String }`; the `String` value is
its UTF-8 byte sequence. -/
structure KeyValue where
  key : SVCBKey
  value : List Nat
  deriving DecidableEq, Repr

/-- The Rust type invariant of `KeyValue.value : String`. -/
def KeyValue.wf (kv : KeyValue) : Prop := utf8Valid kv.value = true

instance (kv : KeyValue) : Decidable kv.wf := by
  unfold KeyValue.wf; infer_instance

/-- `struct SVCB { priority: u16, target: Name, values: Vec<KeyValue> }`
(`HTTPS` is a type alias of it). -/
structure SVCB where
  priority : Nat
  target : Name
  values : List KeyValue
  deriving DecidableEq, Repr

/-- Rust type invariants of the `SVCB` fields. -/
def SVCB.wf (s : SVCB) : Prop :=
  s.priority < 65536 ∧ s.target.wf ∧ ∀ kv ∈ s.values, kv.wf

instance (s : SVCB) : Decidable s.wf := by
  unfold SVCB.wf; infer_instance

/-- `fmt::Display for KeyValue`: `write!(f, "{key}={value}")`. -/
def KeyValue.display (kv : KeyValue) : List Nat :=
  strBytes kv.key.displayName ++ strBytes "=" ++ kv.value

/-- `fmt::Display for SVCB`: the `for` loop accumulates each value's
rendering into `values` by `push_str`, then
`write!(f, "{priority} {target} {values}")`. -/
def SVCB.display (s : SVCB) : List Nat :=
  let values := s.values.foldl (fun acc kv => acc ++ kv.display) []
  strBytes (Nat.repr s.priority) ++ strBytes " " ++ s.target.displayText
    ++ strBytes " " ++ values

/-- The parameter-list loop of `svcb::read`:
`while decoder.len() > 4 { read key, lookup+unwrap, read length, read value,
from_utf8+unwrap, push }`. -/
def readValues (input : List Nat) : Except ProtoError (List KeyValue × List Nat) :=
  if 4 < input.length then
    match h1 : read_u16 input with
    | .error e => .error e
    | .ok (code, r1) =>
      match SVCB_MAP_get code with
      | none => .error .panicUnwrapNone
      | some key =>
        match h2 : read_u16 r1 with
        | .error e => .error e
        | .ok (val_len, r2) =>
          match h3 : read_vec val_len r2 with
          | .error e => .error e
          | .ok (buf, r3) =>
            if utf8Valid buf then
              match readValues r3 with
              | .error e => .error e
              | .ok (rest, r4) => .ok (⟨key, buf⟩ :: rest, r4)
            else .error .panicInvalidUtf8
  else .ok ([], input)
  termination_by input.length
  decreasing_by
    have e1 := read_u16_ok_length h1
    have e2 := read_u16_ok_length h2
    have e3 := read_vec_ok_length h3
    omega

/-- `svcb::read`: priority, target name, then the parameter loop. -/
def readSVCB (input : List Nat) : Except ProtoError (SVCB × List Nat) :=
  match read_u16 input with
  | .error e => .error e
  | .ok (priority, r1) =>
    match Name.read r1 with
    | .error e => .error e
    | .ok (target, r2) =>
      match readValues r2 with
      | .error e => .error e
      | .ok (values, r3) => .ok (⟨priority, target, values⟩, r3)

/-- One iteration of the `for kv in svcb.values` emit loop: key code, value
length cast `as u16`, then the raw value bytes. -/
def kvWire (kv : KeyValue) : List Nat :=
  emit_u16 (svcbKeyCode kv.key) ++ emit_u16 (kv.value.length % 65536) ++ kv.value

/-- `svcb::emit`: priority, the target name (lowercased only under
DNSSEC-canonical emission), then each `KeyValue` in list order. -/
def emitSVCB (is_canonical_names : Bool) (s : SVCB) : List Nat :=
  emit_u16 s.priority ++ Name.emitBytes is_canonical_names s.target
    ++ s.values.foldl (fun acc kv => acc ++ kvWire kv) []

/-! ## SRV codec (srv.rs) -/

/-- `struct SRV { priority: u16, weight: u16, port: u16, target: Name }`. -/
structure SRV where
  priority : Nat
  weight : Nat
  port : Nat
  target : Name
  deriving DecidableEq, Repr

/-- Rust type invariants of the `SRV` fields. -/
def SRV.wf (srv : SRV) : Prop :=
  srv.priority < 65536 ∧ srv.weight < 65536 ∧ srv.port < 65536 ∧ srv.target.wf

instance (srv : SRV) : Decidable srv.wf := by
  unfold SRV.wf; infer_instance

/-- `srv::read`: priority, weight, port, then the target name, in that
fixed order. -/
def readSRV (input : List Nat) : Except ProtoError (SRV × List Nat) :=
  match read_u16 input with
  | .error e => .error e
  | .ok (priority, r1) =>
    match read_u16 r1 with
    | .error e => .error e
    | .ok (weight, r2) =>
      match read_u16 r2 with
      | .error e => .error e
      | .ok (port, r3) =>
        match Name.read r3 with
        | .error e => .error e
        | .ok (target, r4) => .ok (⟨priority, weight, port, target⟩, r4)

/-- `srv::emit`: the three integers then the uncompressed target name. -/
def emitSRV (srv : SRV) : List Nat :=
  emit_u16 srv.priority ++ emit_u16 srv.weight ++ emit_u16 srv.port
    ++ Name.emitBytes false srv.target

/-! ## Text parsing (srv.rs `parse`, client svcb.rs `parse`) -/

/-- The zone-file tokenizer's token type (the subset of variants this codec
distinguishes: `srv::parse` only accepts `Token::CharData`). -/
inductive Token where
  | blank
  | list (ts : List String)
  | charData (s : String)
  | eol
  deriving DecidableEq, Repr

/-- `ParseErrorKind`: the error kinds these parsers produce. -/
inductive ParseErrorKind where
  | missingToken (field : String)
  | unexpectedToken (t : Token)
  | parseInt
  | nameError
  deriving DecidableEq, Repr

/-- Rust `u16::from_str`: an optional leading `+`, then decimal digits;
rejects the empty digit string and values above `u16::MAX`. -/
def parseU16 (s : String) : Option Nat :=
  let chars := match s.data with
    | '+' :: cs => cs
    | cs => cs
  if chars ≠ [] ∧ chars.all Char.isDigit then
    let v := chars.foldl (fun acc c => acc * 10 + (c.toNat - 48)) 0
    if v < 65536 then some v else none
  else none

/-- Split a character sequence at every dot. -/
def splitLabels : List Char → List (List Char)
  | [] => [[]]
  | c :: rest =>
    match splitLabels rest with
    | [] => [[]]
    | l :: ls => if c = '.' then [] :: l :: ls else (c :: l) :: ls

/-- Modelled from the spec: the external Name Codec's text parser — dotted
labels; `.` is the root; a trailing dot makes the name fully qualified,
otherwise the optional origin is appended (relative-name resolution); empty
labels are rejected. -/
def Name.parse (s : String) (origin : Option Name) : Except ParseErrorKind Name :=
  if s = "." then .ok ⟨[]⟩
  else
    let parts := splitLabels s.data
    let fqdn := match parts.getLast? with
      | some [] => true
      | _ => false
    let parts := if fqdn then parts.dropLast else parts
    if parts.any List.isEmpty then .error .nameError
    else
      let labels := parts.map (fun l => l.map Char.toNat)
      if fqdn then .ok ⟨labels⟩
      else
        match origin with
        | some o => .ok ⟨labels ++ o.labels⟩
        | none => .ok ⟨labels⟩

/-- One numeric field of `srv::parse`: the repeated
`token.next().ok_or(MissingToken(field)).and_then(CharData => s.parse())`
pattern. -/
def srvNextU16 (field : String) : List Token → Except ParseErrorKind (Nat × List Token)
  | [] => .error (.missingToken field)
  | t :: rest =>
    match t with
    | .charData s =>
      match parseU16 s with
      | some v => .ok (v, rest)
      | none => .error .parseInt
    | _ => .error (.unexpectedToken t)

/-- The target field of `srv::parse`: same pattern with
`Name::parse(s, origin)` in place of the numeric parse. -/
def srvNextName (field : String) (origin : Option Name) :
    List Token → Except ParseErrorKind (Name × List Token)
  | [] => .error (.missingToken field)
  | t :: rest =>
    match t with
    | .charData s =>
      match Name.parse s origin with
      | .ok n => .ok (n, rest)
      | .error e => .error e
    | _ => .error (.unexpectedToken t)

/-- `srv::parse`: four whitespace-delimited tokens — priority, weight,
port, target — consumed in order from the token iterator. -/
def srvParse (tokens : List Token) (origin : Option Name) : Except ParseErrorKind SRV :=
  match srvNextU16 "priority" tokens with
  | .error e => .error e
  | .ok (priority, t1) =>
    match srvNextU16 "weight" t1 with
    | .error e => .error e
    | .ok (weight, t2) =>
      match srvNextU16 "port" t2 with
      | .error e => .error e
      | .ok (port, t3) =>
        match srvNextName "target" origin t3 with
        | .error e => .error e
        | .ok (target, _) => .ok ⟨priority, weight, port, target⟩

/-- Client-side `svcb::parse`: three tokens — priority, target, and the
whole key-value block, which is handed to the external
`SVCBKeyValues::parse` helper (passed in as `kvParse`, since that helper
is outside this codec's core). -/
def svcbTextParse (kvParse : String → Except ParseErrorKind (List KeyValue))
    (tokens : List String) (origin : Option Name) : Except ParseErrorKind SVCB :=
  match tokens with
  | [] => .error (.missingToken "priority")
  | t1 :: rest1 =>
    match parseU16 t1 with
    | none => .error .parseInt
    | some priority =>
      match rest1 with
      | [] => .error (.missingToken "target")
      | t2 :: rest2 =>
        match Name.parse t2 origin with
        | .error e => .error e
        | .ok target =>
          match rest2 with
          | [] => .error (.missingToken "values")
          | t3 :: _ =>
            match kvParse t3 with
            | .error e => .error e
            | .ok values => .ok ⟨priority, target, values⟩

/-! ## General lemmas -/

/-- An appending `foldl` (the shape of both the emit loop and the display
loop) is the flattening of the mapped list. -/
theorem foldl_append_flatten {α β : Type} (f : α → List β) (l : List α) (init : List β) :
    l.foldl (fun acc x => acc ++ f x) init = init ++ (l.map f).flatten := by
  induction l generalizing init with
  | nil => simp
  | cons x xs ih => simp [List.foldl_cons, ih, List.append_assoc]

/-- The registry map sends every registered key's code back to that key:
`key_to_code` is inverted by `code_to_key`. -/
theorem SVCB_MAP_get_code (k : SVCBKey) : SVCB_MAP_get (svcbKeyCode k) = some k := by
  cases k <;> rfl

theorem svcbKeyCode_lt (k : SVCBKey) : svcbKeyCode k < 65536 := by
  cases k <;> simp [svcbKeyCode]

/-- The parameter loop stops, consuming nothing, when at most 4 bytes
remain. -/
theorem readValues_stop (input : List Nat) (h : input.length ≤ 4) :
    readValues input = .ok ([], input) := by
  rw [readValues.eq_def, if_neg (by omega)]

/-- One successful iteration of the parameter loop over the bytes the emit
loop wrote for one `KeyValue`. -/
theorem readValues_cons_wire (key : SVCBKey) (value rest : List Nat)
    (vs : List KeyValue) (r : List Nat)
    (hv : utf8Valid value = true) (hlen1 : 1 ≤ value.length) (hlen2 : value.length ≤ 65535)
    (hrest : readValues rest = .ok (vs, r)) :
    readValues (kvWire ⟨key, value⟩ ++ rest) = .ok (⟨key, value⟩ :: vs, r) := by
  have hmod : value.length % 65536 = value.length := Nat.mod_eq_of_lt (by omega)
  have hlen : 4 < (kvWire ⟨key, value⟩ ++ rest).length := by
    simp only [kvWire, emit_u16, List.length_append, List.length_cons, List.length_nil]
    omega
  have h1 : kvWire ⟨key, value⟩ ++ rest
      = emit_u16 (svcbKeyCode key) ++ (emit_u16 (value.length % 65536) ++ (value ++ rest)) := by
    simp [kvWire, List.append_assoc]
  rw [readValues.eq_def, if_pos hlen, h1]
  split
  · next e heq =>
    rw [read_u16_emit_u16] at heq
    cases heq
  · next code r1 heq =>
    rw [read_u16_emit_u16] at heq
    injection heq with heq'
    injection heq' with hcode hr1
    subst hcode
    subst hr1
    simp only [SVCB_MAP_get_code]
    split
    · next e heq2 =>
      rw [read_u16_emit_u16] at heq2
      cases heq2
    · next val_len r2 heq2 =>
      rw [read_u16_emit_u16] at heq2
      injection heq2 with heq2'
      injection heq2' with hval hr2
      subst hval
      subst hr2
      split
      · next e heq3 =>
        rw [hmod, read_vec_append] at heq3
        cases heq3
      · next buf r3 heq3 =>
        rw [hmod, read_vec_append] at heq3
        injection heq3 with heq3'
        injection heq3' with hbuf hr3
        subst hbuf
        subst hr3
        rw [if_pos hv, hrest]

/-- Decoding the bytes the emit loop wrote for a parameter list recovers
the list exactly, when every value is 1–65535 bytes of valid UTF-8. -/
theorem readValues_emit (vs : List KeyValue)
    (h : ∀ kv ∈ vs, kv.wf ∧ 1 ≤ kv.value.length ∧ kv.value.length ≤ 65535) :
    readValues ((vs.map kvWire).flatten) = .ok (vs, []) := by
  induction vs with
  | nil => exact readValues_stop [] (by simp)
  | cons kv vs ih =>
    obtain ⟨hwf, hlen1, hlen2⟩ := h kv (by simp)
    have ih' := ih (fun x hx => h x (List.mem_cons_of_mem _ hx))
    simp only [List.map_cons, List.flatten_cons]
    exact readValues_cons_wire kv.key kv.value _ vs [] hwf hlen1 hlen2 ih'

/-- SVCB binary round trip (under the default, non-canonical encoder):
decoding what `emit` wrote recovers the record and consumes every byte,
when every parameter value is 1–65535 bytes long. -/
theorem readSVCB_emitSVCB (s : SVCB) (hwf : s.wf)
    (hlen : ∀ kv ∈ s.values, 1 ≤ kv.value.length ∧ kv.value.length ≤ 65535) :
    readSVCB (emitSVCB false s) = .ok (s, []) := by
  obtain ⟨p, t, vs⟩ := s
  obtain ⟨hp, ht, hkv⟩ := hwf
  have hvals := readValues_emit vs (fun kv hk => ⟨hkv kv hk, (hlen kv hk).1, (hlen kv hk).2⟩)
  simp only [readSVCB, emitSVCB, foldl_append_flatten, List.nil_append, List.append_assoc,
    read_u16_emit_u16, Name.read_emitBytes t ht, hvals]

/-- When more than 4 bytes remain, the parameter loop runs: a successful
decode from that state always yields at least one parameter. -/
theorem readValues_pos_ne_nil (input : List Nat) (vs : List KeyValue) (r : List Nat)
    (h4 : 4 < input.length) (hok : readValues input = .ok (vs, r)) : vs ≠ [] := by
  rw [readValues.eq_def, if_pos h4] at hok
  intro hveq
  subst hveq
  repeat' split at hok
  all_goals simp_all

/-- SRV binary round trip: decoding what `emit` wrote recovers the record
and consumes every byte. -/
theorem readSRV_emitSRV (srv : SRV) (hwf : srv.wf) :
    readSRV (emitSRV srv) = .ok (srv, []) := by
  obtain ⟨p, w, pt, t⟩ := srv
  obtain ⟨hp, hw, hpt, ht⟩ := hwf
  have hname := Name.read_emitBytes t ht []
  rw [List.append_nil] at hname
  simp only [readSRV, emitSRV, List.append_assoc, read_u16_emit_u16, hname]

/-! ## Claims -/

/-- C1.  The claim says the code-to-key lookup never fails during decode,
registering a fallback for unknown codes.  The code instead calls
`SVCB_MAP.get(..).unwrap()`, which panics (aborts) for every unregistered
code: here code 7 makes `read` panic rather than decode.  The second half
of the claim is true: for every registered key, the encoded code
(`key as u16`) maps back to that exact key. -/
theorem claim_C1 :
    SVCB_MAP_get 7 = none
    ∧ readSVCB [0, 1, 0, 0, 7, 0, 0, 0] = .error .panicUnwrapNone
    ∧ (∀ k : SVCBKey, SVCB_MAP_get (svcbKeyCode k) = some k) := by
  refine ⟨rfl, ?_, SVCB_MAP_get_code⟩
  simp [readSVCB, readValues.eq_def, read_u16, Name.read.eq_def, SVCB_MAP_get]

/-- C2 (counterexample).  `decode(encode(v)) == v` fails for the valid SVCB
value with one parameter whose value is empty: its parameter block encodes
to 4 bytes, which the `len() > 4` decode guard never enters, so the
parameter is silently dropped (and its 4 bytes left unconsumed). -/
theorem claim_C2_counterexample :
    readSVCB (emitSVCB false ⟨1, ⟨[]⟩, [⟨.Alpn, []⟩]⟩)
      = .ok (⟨1, ⟨[]⟩, []⟩, [0, 1, 0, 0])
    ∧ (⟨1, ⟨[]⟩, []⟩ : SVCB) ≠ ⟨1, ⟨[]⟩, [⟨.Alpn, []⟩]⟩ := by
  constructor
  · have he : emitSVCB false ⟨1, ⟨[]⟩, [⟨.Alpn, []⟩]⟩ = [0, 1, 0, 0, 1, 0, 0] := rfl
    rw [he]
    simp [readSVCB, readValues.eq_def, read_u16, Name.read.eq_def]
  · decide

/-- C2 (amended).  Binary round trip `decode(encode(v)) == v` holds for
every valid SRV value, and for every valid SVCB/HTTPS value whose
parameter values are each 1 to 65535 bytes long (an empty value ending the
list is dropped by the decode guard, and a value of 65536 bytes or more
overflows the 16-bit length field). -/
theorem claim_C2 :
    (∀ v : SRV, v.wf → readSRV (emitSRV v) = .ok (v, []))
    ∧ (∀ v : SVCB, v.wf →
        (∀ kv ∈ v.values, 1 ≤ kv.value.length ∧ kv.value.length ≤ 65535) →
        readSVCB (emitSVCB false v) = .ok (v, [])) :=
  ⟨readSRV_emitSRV, readSVCB_emitSVCB⟩

/-- Witness for C2 at a concrete SRV and a concrete SVCB value. -/
theorem claim_C2_witness :
    SRV.wf ⟨1, 2, 3, ⟨[[101]]⟩⟩
    ∧ readSRV (emitSRV ⟨1, 2, 3, ⟨[[101]]⟩⟩) = .ok (⟨1, 2, 3, ⟨[[101]]⟩⟩, [])
    ∧ SVCB.wf ⟨1, ⟨[[101]]⟩, [⟨.Alpn, [114, 105, 112]⟩]⟩
    ∧ (∀ kv ∈ (⟨1, ⟨[[101]]⟩, [⟨.Alpn, [114, 105, 112]⟩]⟩ : SVCB).values,
        1 ≤ kv.value.length ∧ kv.value.length ≤ 65535)
    ∧ readSVCB (emitSVCB false ⟨1, ⟨[[101]]⟩, [⟨.Alpn, [114, 105, 112]⟩]⟩)
        = .ok (⟨1, ⟨[[101]]⟩, [⟨.Alpn, [114, 105, 112]⟩]⟩, []) :=
  ⟨by decide, claim_C2.1 _ (by decide), by decide, by decide,
   claim_C2.2 _ (by decide) (by decide)⟩

/-- C4.  The parameter loop is guarded by the remaining-byte count: with at
most 4 bytes left it decodes nothing, consumes nothing and succeeds; with
more than 4 bytes left it always attempts another parameter (a successful
decode from there is never empty); and a whole record whose byte string
leaves 0–4 bytes after priority and target decodes to the record with zero
parameters and those leftover bytes reported back unconsumed. -/
theorem claim_C4 :
    (∀ input : List Nat, input.length ≤ 4 → readValues input = .ok ([], input))
    ∧ (∀ (input : List Nat) (vs : List KeyValue) (r : List Nat),
        4 < input.length → readValues input = .ok (vs, r) → vs ≠ [])
    ∧ (∀ (p : Nat) (n : Name) (extra : List Nat), n.wf → extra.length ≤ 4 →
        readSVCB (emit_u16 p ++ (Name.emitBytes false n ++ extra))
          = .ok (⟨p, n, []⟩, extra)) := by
  refine ⟨readValues_stop, readValues_pos_ne_nil, ?_⟩
  intro p n extra hn hex
  simp only [readSVCB, read_u16_emit_u16, Name.read_emitBytes n hn,
    readValues_stop extra hex]

/-- Witness for C4 at concrete inputs. -/
theorem claim_C4_witness :
    ([1, 2, 3, 4] : List Nat).length ≤ 4
    ∧ readValues [1, 2, 3, 4] = .ok ([], [1, 2, 3, 4])
    ∧ Name.wf ⟨[[101]]⟩ ∧ ([9, 9] : List Nat).length ≤ 4
    ∧ readSVCB (emit_u16 7 ++ (Name.emitBytes false ⟨[[101]]⟩ ++ [9, 9]))
        = .ok (⟨7, ⟨[[101]]⟩, []⟩, [9, 9]) :=
  ⟨by decide, claim_C4.1 [1, 2, 3, 4] (by decide), by decide, by decide,
   claim_C4.2.2 7 ⟨[[101]]⟩ [9, 9] (by decide) (by decide)⟩

/-- What the parameter loop does on a 5-byte buffer: it enters the loop,
reads key and length, and then either underflows (declared length ≥ 2),
panics, or succeeds with exactly one parameter. -/
theorem readValues_five (b0 b1 b2 b3 b4 : Nat) :
    readValues [b0, b1, b2, b3, b4]
      = match SVCB_MAP_get (b0 * 256 + b1) with
        | none => .error .panicUnwrapNone
        | some key =>
          if b2 * 256 + b3 ≤ 1 then
            if utf8Valid (List.take (b2 * 256 + b3) [b4]) then
              .ok ([⟨key, List.take (b2 * 256 + b3) [b4]⟩],
                List.drop (b2 * 256 + b3) [b4])
            else .error .panicInvalidUtf8
          else .error .bufferUnderflow := by
  rw [readValues.eq_def, if_pos (by simp)]
  simp only [read_u16]
  cases hmap : SVCB_MAP_get (b0 * 256 + b1) with
  | none => simp only [hmap]
  | some key =>
    simp only [hmap]
    by_cases hle : b2 * 256 + b3 ≤ 1
    · rw [if_pos hle]
      have hvec : read_vec (b2 * 256 + b3) [b4]
          = .ok (List.take (b2 * 256 + b3) [b4], List.drop (b2 * 256 + b3) [b4]) := by
        rw [read_vec, if_pos (by simpa using hle)]
      split
      · next e heq =>
        rw [hvec] at heq
        cases heq
      · next buf r3 heq =>
        rw [hvec] at heq
        injection heq with heq'
        injection heq' with hbuf hr3
        subst hbuf
        subst hr3
        have hstop : readValues (List.drop (b2 * 256 + b3) [b4])
            = .ok ([], List.drop (b2 * 256 + b3) [b4]) := by
          refine readValues_stop _ ?_
          simp only [List.length_drop, List.length_cons, List.length_nil]
          omega
        rw [hstop]
    · rw [if_neg hle]
      have hvec : read_vec (b2 * 256 + b3) [b4] = .error .bufferUnderflow := by
        rw [read_vec, if_neg (by simp; omega)]
      split
      · next e heq =>
        rw [hvec] at heq
        injection heq with h'
        rw [h']
      · next buf r3 heq =>
        rw [hvec] at heq
        cases heq

/-- C3 (counterexample).  With exactly 5 bytes remaining after priority and
target (`[0,1,0,0,99]`: key Alpn, declared length 0, one stray byte),
decode does not report an underflow or decode zero parameters: it silently
succeeds with ONE parameter and the fifth byte lost (left unconsumed, not
surfaced as an error). -/
theorem claim_C3_counterexample :
    readSVCB [0, 1, 0, 0, 1, 0, 0, 99] = .ok (⟨1, ⟨[]⟩, [⟨.Alpn, []⟩]⟩, [99])
    ∧ ([0, 1, 0, 0, 99] : List Nat).length = 5 := by
  constructor
  · simp [readSVCB, readValues.eq_def, read_u16, read_vec, SVCB_MAP_get, Name.read.eq_def,
      show utf8Valid [] = true from rfl]
  · rfl

/-- C3 (amended).  With exactly 5 bytes remaining after priority and
target, the decode loop runs once (never zero parameters): any successful
decode carries exactly one parameter, leaving at most 1 byte unconsumed;
and a BufferUnderflow is observed precisely when — if and only if — the
key code is registered and the declared value length needs at least 2 of
the 1 remaining byte. -/
theorem claim_C3 : ∀ b0 b1 b2 b3 b4 : Nat,
    (∀ (vs : List KeyValue) (r : List Nat),
      readValues [b0, b1, b2, b3, b4] = .ok (vs, r) → vs.length = 1 ∧ r.length ≤ 1)
    ∧ (readValues [b0, b1, b2, b3, b4] = .error .bufferUnderflow
        ↔ SVCB_MAP_get (b0 * 256 + b1) ≠ none ∧ 2 ≤ b2 * 256 + b3) := by
  intro b0 b1 b2 b3 b4
  constructor
  · intro vs r hok
    rw [readValues_five] at hok
    cases hmap : SVCB_MAP_get (b0 * 256 + b1) with
    | none =>
      simp only [hmap] at hok
      cases hok
    | some key =>
      simp only [hmap] at hok
      by_cases hle : b2 * 256 + b3 ≤ 1
      · rw [if_pos hle] at hok
        by_cases hu : utf8Valid (List.take (b2 * 256 + b3) [b4]) = true
        · rw [if_pos hu] at hok
          injection hok with hok'
          injection hok' with hvs hr
          subst hvs
          subst hr
          refine ⟨rfl, ?_⟩
          simp
        · rw [if_neg hu] at hok
          cases hok
      · rw [if_neg hle] at hok
        cases hok
  · have hred := readValues_five b0 b1 b2 b3 b4
    cases hm : SVCB_MAP_get (b0 * 256 + b1) with
    | none =>
      simp only [hm] at hred
      rw [hred]
      simp
    | some key =>
      simp only [hm] at hred
      by_cases hle : b2 * 256 + b3 ≤ 1
      · rw [if_pos hle] at hred
        rw [hred]
        constructor
        · intro h
          split at h <;> simp at h
        · rintro ⟨_, hge⟩
          exfalso
          omega
      · rw [if_neg hle] at hred
        rw [hred]
        constructor
        · intro _
          exact ⟨by simp, by omega⟩
        · intro _
          rfl

/-- Witness for C3 (amended) at a concrete 5-byte buffer. -/
theorem claim_C3_witness :
    readValues [0, 1, 0, 1, 114] = .ok ([⟨.Alpn, [114]⟩], [])
    ∧ ([⟨.Alpn, [114]⟩] : List KeyValue).length = 1 ∧ ([] : List Nat).length ≤ 1
    ∧ SVCB_MAP_get (0 * 256 + 1) ≠ none ∧ 2 ≤ 0 * 256 + 2
    ∧ readValues [0, 1, 0, 2, 114] = .error .bufferUnderflow :=
  ⟨by simp [readValues.eq_def, read_u16, read_vec, SVCB_MAP_get,
      show utf8Valid [114] = true from rfl],
   (claim_C3 0 1 0 1 114).1 [⟨.Alpn, [114]⟩] []
      (by simp [readValues.eq_def, read_u16, read_vec, SVCB_MAP_get,
        show utf8Valid [114] = true from rfl]) |>.1,
   (claim_C3 0 1 0 1 114).1 [⟨.Alpn, [114]⟩] []
      (by simp [readValues.eq_def, read_u16, read_vec, SVCB_MAP_get,
        show utf8Valid [114] = true from rfl]) |>.2,
   by decide, by decide,
   (claim_C3 0 1 0 2 114).2.mpr ⟨by decide, by decide⟩⟩

/-- C9.  The claim says binary decode never aborts, in particular not on a
parameter value that is not valid UTF-8.  The code calls
`String::from_utf8(buf).unwrap()`, which panics on invalid UTF-8: the
record below carries the single value byte 0xFF (never valid in UTF-8) and
makes `read` abort instead of returning a record or an error. -/
theorem claim_C9 :
    readSVCB [0, 1, 0, 0, 1, 0, 1, 255] = .error .panicInvalidUtf8
    ∧ utf8Valid [255] = false := by
  constructor
  · simp [readSVCB, readValues.eq_def, read_u16, read_vec, SVCB_MAP_get, Name.read.eq_def,
      show utf8Valid [255] = false from rfl]
  · rfl

/-- The target name of the spec's concrete vector,
`"_dns._tcp.example.com"`. -/
def exName : Name :=
  ⟨[strBytes "_dns", strBytes "_tcp", strBytes "example", strBytes "com"]⟩

/-- The spec's concrete vector: SVCB priority 1, target
`_dns._tcp.example.com`, one Alpn parameter with value `"rip"`. -/
def exSVCB : SVCB := ⟨1, exName, [⟨.Alpn, strBytes "rip"⟩]⟩

/-- C5.  The concrete vector encodes to
`[0,1, <name bytes>, 0,1, 0,3, 'r','i','p']` — big-endian priority 1,
the wire-form name, key code 1 (Alpn), length 3, then `r`,`i`,`p` — and
decodes back to the identical structured value with no bytes left. -/
theorem claim_C5 :
    emitSVCB false exSVCB
      = [0, 1] ++ (Name.emitBytes false exName
          ++ ([0, 1] ++ ([0, 3] ++ [114, 105, 112])))
    ∧ Name.emitBytes false exName
        = [4, 95, 100, 110, 115, 4, 95, 116, 99, 112,
           7, 101, 120, 97, 109, 112, 108, 101, 3, 99, 111, 109, 0]
    ∧ readSVCB (emitSVCB false exSVCB) = .ok (exSVCB, []) := by
  refine ⟨by decide, by decide, ?_⟩
  exact readSVCB_emitSVCB exSVCB (by decide) (by decide)

/-- C6.  The text formatter renders `"{priority} {target} {values}"`, where
`{values}` is each `KeyValue` rendered as `"{display_name}={value}"`,
concatenated in list order with no separator; the display name is the
registry's lowercase hyphenated name for registered keys and the empty
string for the `Reserved` fallback (the wildcard `match` arm). -/
theorem claim_C6 : ∀ s : SVCB,
    SVCB.display s
      = strBytes (Nat.repr s.priority) ++ strBytes " " ++ s.target.displayText
          ++ strBytes " " ++ (s.values.map KeyValue.display).flatten
    ∧ (∀ kv : KeyValue, kv.display = strBytes kv.key.displayName ++ strBytes "=" ++ kv.value)
    ∧ SVCBKey.displayName .NoDefaultAlpn = "no-default-alpn"
    ∧ SVCBKey.displayName .Reserved = "" := by
  intro s
  refine ⟨?_, fun kv => rfl, rfl, rfl⟩
  rw [SVCB.display]
  rw [foldl_append_flatten]
  simp

/-- C7.  `srv::parse` consumes exactly four tokens — priority, weight,
port, target — in order (surplus tokens are ignored), and with fewer than
four tokens fails with `MissingToken` naming the first absent field; in
particular no tokens yields `MissingToken("priority")` and the two tokens
`1 2` yield `MissingToken("port")`. -/
theorem claim_C7 : ∀ origin : Option Name,
    srvParse [] origin = .error (.missingToken "priority")
    ∧ srvParse [.charData "1", .charData "2"] origin = .error (.missingToken "port")
    ∧ (∀ s1 v1, parseU16 s1 = some v1 →
        srvParse [.charData s1] origin = .error (.missingToken "weight"))
    ∧ (∀ s1 s2 v1 v2, parseU16 s1 = some v1 → parseU16 s2 = some v2 →
        srvParse [.charData s1, .charData s2] origin = .error (.missingToken "port"))
    ∧ (∀ s1 s2 s3 v1 v2 v3,
        parseU16 s1 = some v1 → parseU16 s2 = some v2 → parseU16 s3 = some v3 →
        srvParse [.charData s1, .charData s2, .charData s3] origin
          = .error (.missingToken "target"))
    ∧ (∀ s1 s2 s3 s4 v1 v2 v3 n extra,
        parseU16 s1 = some v1 → parseU16 s2 = some v2 → parseU16 s3 = some v3 →
        Name.parse s4 origin = .ok n →
        srvParse ([.charData s1, .charData s2, .charData s3, .charData s4] ++ extra) origin
          = .ok ⟨v1, v2, v3, n⟩) := by
  intro origin
  have gen1 : ∀ s1 v1, parseU16 s1 = some v1 →
      srvParse [.charData s1] origin = .error (.missingToken "weight") := by
    intro s1 v1 h1
    simp [srvParse, srvNextU16, h1]
  have gen2 : ∀ s1 s2 v1 v2, parseU16 s1 = some v1 → parseU16 s2 = some v2 →
      srvParse [.charData s1, .charData s2] origin = .error (.missingToken "port") := by
    intro s1 s2 v1 v2 h1 h2
    simp [srvParse, srvNextU16, h1, h2]
  have gen3 : ∀ s1 s2 s3 v1 v2 v3,
      parseU16 s1 = some v1 → parseU16 s2 = some v2 → parseU16 s3 = some v3 →
      srvParse [.charData s1, .charData s2, .charData s3] origin
        = .error (.missingToken "target") := by
    intro s1 s2 s3 v1 v2 v3 h1 h2 h3
    simp [srvParse, srvNextU16, srvNextName, h1, h2, h3]
  have gen4 : ∀ s1 s2 s3 s4 v1 v2 v3 n extra,
      parseU16 s1 = some v1 → parseU16 s2 = some v2 → parseU16 s3 = some v3 →
      Name.parse s4 origin = .ok n →
      srvParse ([.charData s1, .charData s2, .charData s3, .charData s4] ++ extra) origin
        = .ok ⟨v1, v2, v3, n⟩ := by
    intro s1 s2 s3 s4 v1 v2 v3 n extra h1 h2 h3 h4
    simp [srvParse, srvNextU16, srvNextName, h1, h2, h3, h4]
  exact ⟨rfl, gen2 "1" "2" 1 2 (by decide) (by decide), gen1, gen2, gen3, gen4⟩

/-- Witness for C7 at concrete token lists. -/
theorem claim_C7_witness :
    parseU16 "1" = some 1 ∧ parseU16 "2" = some 2 ∧ parseU16 "3" = some 3
    ∧ Name.parse "example.com." none = .ok ⟨[strBytes "example", strBytes "com"]⟩
    ∧ srvParse [.charData "1", .charData "2", .charData "3", .charData "example.com.",
        .charData "surplus"] none
        = .ok ⟨1, 2, 3, ⟨[strBytes "example", strBytes "com"]⟩⟩ :=
  ⟨by decide, by decide, by decide, by decide,
   (claim_C7 none).2.2.2.2.2 "1" "2" "3" "example.com." 1 2 3
     ⟨[strBytes "example", strBytes "com"]⟩ [.charData "surplus"]
     (by decide) (by decide) (by decide) (by decide)⟩

/-- C8.  The client-side SVCB/HTTPS text parser consumes exactly three
tokens — priority (16-bit decimal), target (a name resolved against the
optional origin), and one token holding the whole key-value block handed
to the external value-parsing helper (surplus tokens are ignored) — and
with fewer than three tokens fails with `MissingToken` naming the absent
field. -/
theorem claim_C8 :
    ∀ (kvParse : String → Except ParseErrorKind (List KeyValue)) (origin : Option Name),
    svcbTextParse kvParse [] origin = .error (.missingToken "priority")
    ∧ (∀ s1 v1, parseU16 s1 = some v1 →
        svcbTextParse kvParse [s1] origin = .error (.missingToken "target"))
    ∧ (∀ s1 s2 v1 n, parseU16 s1 = some v1 → Name.parse s2 origin = .ok n →
        svcbTextParse kvParse [s1, s2] origin = .error (.missingToken "values"))
    ∧ (∀ s1 s2 s3 extra v1 n vs,
        parseU16 s1 = some v1 → Name.parse s2 origin = .ok n → kvParse s3 = .ok vs →
        svcbTextParse kvParse (s1 :: s2 :: s3 :: extra) origin = .ok ⟨v1, n, vs⟩) := by
  intro kvParse origin
  refine ⟨rfl, ?_, ?_, ?_⟩
  · intro s1 v1 h1
    simp [svcbTextParse, h1]
  · intro s1 s2 v1 n h1 h2
    simp [svcbTextParse, h1, h2]
  · intro s1 s2 s3 extra v1 n vs h1 h2 h3
    simp [svcbTextParse, h1, h2, h3]

/-- Witness for C8 with a concrete helper and concrete tokens. -/
theorem claim_C8_witness :
    parseU16 "1" = some 1
    ∧ Name.parse "example.com." none = .ok ⟨[strBytes "example", strBytes "com"]⟩
    ∧ (fun _ : String => (.ok [] : Except ParseErrorKind (List KeyValue))) "alpn=h2" = .ok []
    ∧ svcbTextParse (fun _ => .ok []) ["1", "example.com.", "alpn=h2"] none
        = .ok ⟨1, ⟨[strBytes "example", strBytes "com"]⟩, []⟩ :=
  ⟨by decide, by decide, rfl,
   (claim_C8 (fun _ => .ok []) none).2.2.2 "1" "example.com." "alpn=h2" [] 1
     ⟨[strBytes "example", strBytes "com"]⟩ [] (by decide) (by decide) rfl⟩

/-- C10.  For each `KeyValue` the emit loop writes the key code, then the
value's byte count cast `as u16` (i.e. reduced mod 2^16) as the 16-bit
length field, then every byte of the value; the length field equals the
payload byte count exactly when the value is at most 65535 bytes. -/
theorem claim_C10 : ∀ kv : KeyValue,
    kvWire kv
      = emit_u16 (svcbKeyCode kv.key) ++ (emit_u16 (kv.value.length % 65536) ++ kv.value)
    ∧ kv.value.length % 65536 < 65536
    ∧ ((kv.value.length % 65536 = kv.value.length) ↔ kv.value.length ≤ 65535) := by
  intro kv
  refine ⟨by simp [kvWire], by omega, ?_, ?_⟩
  · intro h
    omega
  · intro h
    exact Nat.mod_eq_of_lt (by omega)
